import Mathlib

/-!
Verification of the web-mini CSS minifier (src/web_mini/css.py).

The pipeline is embedded shallowly: every rewrite rule of the Python source
is modelled as a left-to-right scanner over `List Char` that mirrors the
semantics of `re.sub` (leftmost match, non-overlapping, continue after the
replaced region) for the concrete pattern of that rule.  String-level
wrappers keep the names of the Python functions.
-/

/-- Python `\s` on ASCII text: space, tab, newline, carriage return,
vertical tab, form feed. -/
def isWS (c : Char) : Bool :=
  c == ' ' || c == '\t' || c == '\n' || c == '\r' || c == '\x0b' || c == '\x0c'

/-- The punctuation class of the whitespace rule: `{`, `}`, `:`, `;`, `,`. -/
def isPunctW (c : Char) : Bool :=
  c == '{' || c == '}' || c == ':' || c == ';' || c == ','

/-- ASCII decimal digit (code points 48 to 57). -/
def isDigitC (c : Char) : Bool := 48 ≤ c.toNat && c.toNat ≤ 57

/-- ASCII letter, for the selector-unquoting rule. -/
def isAlphaC (c : Char) : Bool :=
  (97 ≤ c.toNat && c.toNat ≤ 122) || (65 ≤ c.toNat && c.toNat ≤ 90)

/-- The value class `[a-zA-Z0-9-_\.]` of the selector-unquoting rule. -/
def isValC (c : Char) : Bool :=
  isAlphaC c || isDigitC c || c == '-' || c == '_' || c == '.'

/-- Hexadecimal digit `[0-9a-fA-F]`. -/
def isHexC (c : Char) : Bool :=
  isDigitC c || (97 ≤ c.toNat && c.toNat ≤ 102) || (65 ≤ c.toNat && c.toNat ≤ 70)

/-- The class `[\d.]` used by the hsl/hsla/rgba float captures. -/
def isDotDigit (c : Char) : Bool := isDigitC c || c == '.'

/-- Number of leading characters of the list satisfying `p`. -/
def leadCount (p : Char → Bool) : List Char → Nat
  | [] => 0
  | c :: cs => if p c then leadCount p cs + 1 else 0

/-- Boolean test that `n` is a prefix of `s`. -/
def isPre : List Char → List Char → Bool
  | [], _ => true
  | _ :: _, [] => false
  | a :: as, b :: bs => a == b && isPre as bs

/-- Boolean test that `n` occurs as a contiguous substring of `s`. -/
def occursL (n : List Char) : List Char → Bool
  | [] => isPre n []
  | c :: cs => isPre n (c :: cs) || occursL n cs

/-- Index of the first occurrence of `n` in `s`, if any. -/
def findSub (n : List Char) : List Char → Option Nat
  | [] => if isPre n [] then some 0 else none
  | c :: cs =>
    if isPre n (c :: cs) then some 0 else
      match findSub n cs with
      | some k => some (k + 1)
      | none => none

/-- One pass of a `re.sub`-style scanner, fuelled for structural recursion.
A step either consumes a nonempty matched region, emitting a replacement and
the remaining text, or declines and the scanner moves one character right. -/
def scanF (step : List Char → Option (List Char × List Char)) : Nat → List Char → List Char
  | 0, s => s
  | _ + 1, [] => []
  | f + 1, c :: cs =>
    match step (c :: cs) with
    | some (out, rest) => out ++ scanF step f rest
    | none => c :: scanF step f cs

/-- Scanner with fuel fixed to the input length, which always suffices. -/
def scanL (step : List Char → Option (List Char × List Char)) (s : List Char) : List Char :=
  scanF step s.length s

/-- Step of Python `str.replace`: replace a leading `needle` by `repl`. -/
def replStep (needle repl : List Char) (s : List Char) : Option (List Char × List Char) :=
  if needle.isEmpty then none
  else if isPre needle s then some (repl, s.drop needle.length) else none

/-- Python `str.replace needle repl`: left-to-right, non-overlapping. -/
def replaceAllL (needle repl s : List Char) : List Char :=
  scanL (replStep needle repl) s

/-- Python `str.strip()` on ASCII whitespace. -/
def stripL (s : List Char) : List Char :=
  ((s.dropWhile isWS).reverse.dropWhile isWS).reverse

/-- Decimal value of a digit string, as Python `int` on a `\d+` capture. -/
def parseNatL (ds : List Char) : Nat :=
  ds.foldl (fun a c => a * 10 + (c.toNat - 48)) 0

/-- Lowercase hexadecimal digit for a value below 16. -/
def hexChar (n : Nat) : Char :=
  if n < 10 then Char.ofNat (48 + n) else Char.ofNat (87 + n)

/-- Hexadecimal digits of `n`, most significant first (fuelled). -/
def hexDigitsAux : Nat → Nat → List Char
  | 0, n => [hexChar (n % 16)]
  | f + 1, n => if n < 16 then [hexChar n] else hexDigitsAux f (n / 16) ++ [hexChar (n % 16)]

/-- Hexadecimal digits of `n`, most significant first. -/
def hexDigits (n : Nat) : List Char := hexDigitsAux n n

/-- Python `f"{n:02x}"`: hexadecimal, zero-padded to at least two digits. -/
def hex2 (n : Nat) : List Char :=
  if (hexDigits n).length == 1 then '0' :: hexDigits n else hexDigits n

/-- Unreduced fraction `num / den`; every constructor keeps `den` positive. -/
structure Frac where
  num : Int
  den : Int

/-- Fraction addition. -/
def Frac.add (a b : Frac) : Frac := ⟨a.num * b.den + b.num * a.den, a.den * b.den⟩

/-- Fraction subtraction. -/
def Frac.sub (a b : Frac) : Frac := ⟨a.num * b.den - b.num * a.den, a.den * b.den⟩

/-- Fraction multiplication. -/
def Frac.mul (a b : Frac) : Frac := ⟨a.num * b.num, a.den * b.den⟩

/-- Absolute value of a fraction with positive denominator. -/
def Frac.fabs (a : Frac) : Frac := ⟨Int.natAbs a.num, a.den⟩

/-- Natural number as a fraction. -/
def Frac.ofNat (n : Nat) : Frac := ⟨n, 1⟩

/-- Round `x` to the nearest integer (halves up) and clamp into `[0, 255]`. -/
def fracToByte (x : Frac) : Nat :=
  min 255 (Int.toNat (Int.fdiv (2 * x.num + x.den) (2 * x.den)))

/-- Modelled from the spec: the float value of a `[\d.]+` capture (module
`clrs` is not under `src/`).  The converter contract assumes a well-formed
numeric group; on junk captures this total model keeps the leading
`digits[.digits]` part. -/
def parseFracL (s : List Char) : Frac :=
  let ip := leadCount isDigitC s
  let ipv := parseNatL (s.take ip)
  match s.drop ip with
  | '.' :: r =>
    let fd := leadCount isDigitC r
    ⟨ipv * 10 ^ fd + parseNatL (r.take fd), (10 : Int) ^ fd⟩
  | _ => ⟨ipv, 1⟩

/-- Modelled from the spec: `clrs.rgb_to_hex` (module `clrs` is not under
`src/`).  Each channel is formatted as with Python `f"{n:02x}"` and the
result concatenated as `#rrggbb`. -/
def rgb_to_hexL (r g b : Nat) : List Char :=
  '#' :: (hex2 r ++ hex2 g ++ hex2 b)

/-- Modelled from the spec: the alpha channel of `clrs.rgba_to_hex` and
`clrs.hsla_to_hex`: `round(a * 255)` clamped into `[0, 255]`, two hex digits. -/
def alphaByte (a : Frac) : Nat := fracToByte (Frac.mul a (Frac.ofNat 255))

/-- Modelled from the spec: `clrs.rgba_to_hex`, the rgb part as in
`rgb_to_hexL` plus the clamped alpha byte. -/
def rgba_to_hexL (r g b : Nat) (a : Frac) : List Char :=
  '#' :: (hex2 r ++ hex2 g ++ hex2 b ++ hex2 (alphaByte a))

/-- Modelled from the spec: the standard HSL to RGB conversion of
`clrs.hsl_to_hex`; hue in degrees (wrapped mod 360), saturation and
lightness as percentages, each channel rounded and clamped into `[0, 255]`. -/
def hsl_rgb (h : Nat) (s l : Frac) : Nat × Nat × Nat :=
  let s1 : Frac := ⟨s.num, s.den * 100⟩
  let l1 : Frac := ⟨l.num, l.den * 100⟩
  let c := Frac.mul (Frac.sub (Frac.ofNat 1) (Frac.fabs (Frac.sub (Frac.mul (Frac.ofNat 2) l1) (Frac.ofNat 1)))) s1
  let t : Frac := ⟨((h % 120 : Nat) : Int), 60⟩
  let x := Frac.mul c (Frac.sub (Frac.ofNat 1) (Frac.fabs (Frac.sub t (Frac.ofNat 1))))
  let m := Frac.sub l1 ⟨c.num, c.den * 2⟩
  let sec := h % 360 / 60
  let z : Frac := ⟨0, 1⟩
  let rgb1 :=
    if sec == 0 then (c, x, z) else if sec == 1 then (x, c, z)
    else if sec == 2 then (z, c, x) else if sec == 3 then (z, x, c)
    else if sec == 4 then (x, z, c) else (c, z, x)
  (fracToByte (Frac.mul (Frac.add rgb1.1 m) (Frac.ofNat 255)),
   fracToByte (Frac.mul (Frac.add rgb1.2.1 m) (Frac.ofNat 255)),
   fracToByte (Frac.mul (Frac.add rgb1.2.2 m) (Frac.ofNat 255)))

/-- Modelled from the spec: `clrs.hsl_to_hex` (module `clrs` is not under
`src/`). -/
def hsl_to_hexL (h : Nat) (s l : Frac) : List Char :=
  '#' :: (hex2 (hsl_rgb h s l).1 ++ hex2 (hsl_rgb h s l).2.1 ++ hex2 (hsl_rgb h s l).2.2)

/-- Modelled from the spec: `clrs.hsla_to_hex` (module `clrs` is not under
`src/`). -/
def hsla_to_hexL (h : Nat) (s l : Frac) (a : Frac) : List Char :=
  '#' :: (hex2 (hsl_rgb h s l).1 ++ hex2 (hsl_rgb h s l).2.1 ++ hex2 (hsl_rgb h s l).2.2
    ++ hex2 (alphaByte a))

/-- The colon-prefixed shortest hex of the colour white. -/
def whiteHex : List Char := [':', '#', 'f', 'f', 'f']

/-- Modelled from the spec: `const.REPLACABLE_CLRS` (module `const` is not
under `src/`).  The spec documents only the entry for `white`, mapped to its
shortest hex; values carry the leading colon so that the substitution in
`css_sub_clrs` sends `:keyword` to `:hexvalue`. -/
def REPLACABLE_CLRS : List (List Char × List Char) :=
  [("white".data, whiteHex)]

/-- Step of `r"/\*.*?\*/"` with `re.S`: a leading `/*` closed by the nearest
`*/` is deleted. -/
def stepComments (s : List Char) : Option (List Char × List Char) :=
  if isPre ("/*".data) s then
    match findSub ("*/".data) (s.drop 2) with
    | some j => some ([], s.drop (j + 4))
    | none => none
  else none

/-- `css_remove_comments` on character lists. -/
def css_remove_commentsL (s : List Char) : List Char := scanL stepComments s

/-- Step of `r"\s*({|}|:|;|,)\s*"` replaced by the punctuation character:
leading whitespace, a punctuation character and trailing whitespace collapse
to the punctuation character alone. -/
def stepWS (s : List Char) : Option (List Char × List Char) :=
  let w := leadCount isWS s
  match s.drop w with
  | p :: r2 =>
    if isPunctW p then some ([p], r2.drop (leadCount isWS r2)) else none
  | [] => none

/-- `css_remove_whitespace` on character lists: the substitution, then the
two media-query replaces, then `strip`. -/
def css_remove_whitespaceL (s : List Char) : List Char :=
  stripL (replaceAllL (") and".data) (")and".data)
    (replaceAllL ("and (".data) ("and(".data) (scanL stepWS s)))

/-- Step of `r'([a-zA-Z]+)="([a-zA-Z0-9-_\.]+)"]'` replaced by `\1=\2]`. -/
def stepUnquote (s : List Char) : Option (List Char × List Char) :=
  let a := leadCount isAlphaC s
  if a == 0 then none else
    if isPre ['=', '"'] (s.drop a) then
      let r2 := (s.drop a).drop 2
      let v := leadCount isValC r2
      if v == 0 then none else
        if isPre ['"', ']'] (r2.drop v) then
          some (s.take a ++ '=' :: (r2.take v ++ [']']), (r2.drop v).drop 2)
        else none
    else none

/-- `css_unquote_selectors` on character lists. -/
def css_unquote_selectorsL (s : List Char) : List Char := scanL stepUnquote s

/-- Step of `r'url\((["\'])([^)]*)\1\)'` replaced by `url(\2)`: the greedy
`[^)]*` runs to the first `)`, and backtracking forces the character just
before that `)` to equal the opening quote. -/
def stepUrl (s : List Char) : Option (List Char × List Char) :=
  if isPre ("url(".data) s then
    match s.drop 4 with
    | q :: r2 =>
      if q == '"' || q == '\x27' then
        let b := leadCount (fun c => !(c == ')')) r2
        if isPre [q, ')'] (r2.drop (b - 1)) then
          some (("url(".data) ++ (r2.take (b - 1) ++ [')']), (r2.drop (b - 1)).drop 2)
        else none
      else none
    | [] => none
  else none

/-- `css_remove_url_quotes` on character lists. -/
def css_remove_url_quotesL (s : List Char) : List Char := scanL stepUrl s

/-- Step of `r";;+"` replaced by nothing: a maximal run of at least two
semicolons is deleted. -/
def stepSemi (s : List Char) : Option (List Char × List Char) :=
  if isPre (";;".data) s then some ([], (s.drop 2).dropWhile (· == ';')) else none

/-- `css_remove_semicolons` on character lists: first the literal
`";}" -> "}"` replace, then the semicolon-run deletion. -/
def css_remove_semicolonsL (s : List Char) : List Char :=
  scanL stepSemi (replaceAllL (";\x7d".data) ("\x7d".data) s)

/-- Step of `r"(border|opacity):none"` replaced by `\1:0`. -/
def stepNone (s : List Char) : Option (List Char × List Char) :=
  if isPre ("border:none".data) s then some (("border:0".data), s.drop 11)
  else if isPre ("opacity:none".data) s then some (("opacity:0".data), s.drop 12)
  else none

/-- `css_none_to_zero` on character lists. -/
def css_none_to_zeroL (s : List Char) : List Char := scanL stepNone s

/-- The unit alternation of `css_sub_zero_units`, in source order (regex
alternation takes the first alternative that matches). -/
def unitList : List (List Char) :=
  ["em".data, "ex".data, "cap".data, "ch".data, "ic".data, "rem".data, "lh".data,
   "rlh".data, "vw".data, "vh".data, "vi".data, "vb".data, "vmin".data, "vmax".data,
   "cqw".data, "cqh".data, "cqi".data, "cqb".data, "cqmin".data, "cqmax".data,
   "cm".data, "mm".data, "Q".data, "in".data, "pc".data, "pt".data, "px".data,
   "deg".data, "grad".data, "rad".data, "turn".data, "s".data, "ms".data, "Hz".data,
   "kHz".data, "dpi".data, "dpcm".data, "dppx".data, "x".data, "fr".data, "%".data]

/-- First alternative of `us` that is a prefix of `s`. -/
def matchUnit : List (List Char) → List Char → Option (List Char)
  | [], _ => none
  | u :: us, s => if isPre u s then some u else matchUnit us s

/-- Step of `r"([\s:])(0)(em|ex|...|%)"` replaced by `\1\2`. -/
def stepUnits (s : List Char) : Option (List Char × List Char) :=
  match s with
  | c :: r1 =>
    if (isWS c || c == ':') && isPre ['0'] r1 then
      match matchUnit unitList (r1.drop 1) with
      | some u => some ([c, '0'], (r1.drop 1).drop u.length)
      | none => none
    else none
  | [] => none

/-- `css_sub_zero_units` on character lists. -/
def css_sub_zero_unitsL (s : List Char) : List Char := scanL stepUnits s

/-- Step of `r"(:|\s)0+\.(\d+)"` replaced by `\1.\2`. -/
def stepFloat (s : List Char) : Option (List Char × List Char) :=
  match s with
  | c :: r1 =>
    if c == ':' || isWS c then
      let z := leadCount (· == '0') r1
      if z == 0 then none else
        if isPre ['.'] (r1.drop z) then
          let r2 := (r1.drop z).drop 1
          let d := leadCount isDigitC r2
          if d == 0 then none else some (c :: '.' :: r2.take d, r2.drop d)
        else none
    else none
  | [] => none

/-- `css_shorten_floats` on character lists. -/
def css_shorten_floatsL (s : List Char) : List Char := scanL stepFloat s

/-- Parse `,\s*(\d+)` and return the digit capture with the remaining text. -/
def parseCommaNum (s : List Char) : Option (List Char × List Char) :=
  if isPre [','] s then
    let r := s.drop 1
    let r2 := r.drop (leadCount isWS r)
    let d := leadCount isDigitC r2
    if d == 0 then none else some (r2.take d, r2.drop d)
  else none

/-- Parse `,\s*([\d.]+)%?` and return the capture with the remaining text. -/
def parseCommaFloat (s : List Char) : Option (List Char × List Char) :=
  if isPre [','] s then
    let r := s.drop 1
    let r2 := r.drop (leadCount isWS r)
    let d := leadCount isDotDigit r2
    if d == 0 then none else
      if isPre ['%'] (r2.drop d) then some (r2.take d, (r2.drop d).drop 1)
      else some (r2.take d, r2.drop d)
  else none

/-- Parse `,\s*([\d.]+)` (no optional percent sign). -/
def parseCommaFloatNoPct (s : List Char) : Option (List Char × List Char) :=
  if isPre [','] s then
    let r := s.drop 1
    let r2 := r.drop (leadCount isWS r)
    let d := leadCount isDotDigit r2
    if d == 0 then none else some (r2.take d, r2.drop d)
  else none

/-- Step of `r"rgb\((\d+),\s*(\d+),\s*(\d+)\)"` replaced via `rgb_to_hex`. -/
def stepRgb (s : List Char) : Option (List Char × List Char) :=
  if isPre ("rgb(".data) s then
    let r0 := s.drop 4
    let d1 := leadCount isDigitC r0
    if d1 == 0 then none else
      match parseCommaNum (r0.drop d1) with
      | some (ds2, r2) =>
        match parseCommaNum r2 with
        | some (ds3, r3) =>
          if isPre [')'] r3 then
            some (rgb_to_hexL (parseNatL (r0.take d1)) (parseNatL ds2) (parseNatL ds3), r3.drop 1)
          else none
        | none => none
      | none => none
  else none

/-- `css_rgb2hex` on character lists. -/
def css_rgb2hexL (s : List Char) : List Char := scanL stepRgb s

/-- Step of `r"hsl\((\d+),\s*([\d.]+)%?,\s*([\d.]+)%?\)"` via `hsl_to_hex`. -/
def stepHsl (s : List Char) : Option (List Char × List Char) :=
  if isPre ("hsl(".data) s then
    let r0 := s.drop 4
    let d1 := leadCount isDigitC r0
    if d1 == 0 then none else
      match parseCommaFloat (r0.drop d1) with
      | some (fs2, r2) =>
        match parseCommaFloat r2 with
        | some (fs3, r3) =>
          if isPre [')'] r3 then
            some (hsl_to_hexL (parseNatL (r0.take d1)) (parseFracL fs2) (parseFracL fs3), r3.drop 1)
          else none
        | none => none
      | none => none
  else none

/-- `css_hsl2hex` on character lists. -/
def css_hsl2hexL (s : List Char) : List Char := scanL stepHsl s

/-- `css_sub_clrs` on character lists: for each table entry, a plain
left-to-right replace of `:keyword` by the stored value. -/
def css_sub_clrsL (s : List Char) : List Char :=
  REPLACABLE_CLRS.foldl (fun acc kv => replaceAllL (':' :: kv.1) kv.2 acc) s

/-- Step of `r"#([0-9a-fA-F]{6})"`: six hex digits after `#` are consumed;
if each digit pair is doubled they collapse to three digits, otherwise the
match is emitted unchanged. -/
def stepHex (s : List Char) : Option (List Char × List Char) :=
  match s with
  | a :: r =>
    if a == '#' then
      match r.take 6 with
      | [c0, c1, c2, c3, c4, c5] =>
        if isHexC c0 && isHexC c1 && isHexC c2 && isHexC c3 && isHexC c4 && isHexC c5 then
          if c0 == c1 && c2 == c3 && c4 == c5 then some (['#', c0, c2, c4], r.drop 6)
          else some ('#' :: [c0, c1, c2, c3, c4, c5], r.drop 6)
        else none
      | _ => none
    else none
  | [] => none

/-- `css_shorten_hex` on character lists. -/
def css_shorten_hexL (s : List Char) : List Char := scanL stepHex s

/-- Step of `r"rgba\((\d+),\s*(\d+),\s*(\d+),\s*([\d.]+)\)"` via
`rgba_to_hex`. -/
def stepRgba (s : List Char) : Option (List Char × List Char) :=
  if isPre ("rgba(".data) s then
    let r0 := s.drop 5
    let d1 := leadCount isDigitC r0
    if d1 == 0 then none else
      match parseCommaNum (r0.drop d1) with
      | some (ds2, r2) =>
        match parseCommaNum r2 with
        | some (ds3, r3) =>
          match parseCommaFloatNoPct r3 with
          | some (fs4, r4) =>
            if isPre [')'] r4 then
              some (rgba_to_hexL (parseNatL (r0.take d1)) (parseNatL ds2) (parseNatL ds3)
                (parseFracL fs4), r4.drop 1)
            else none
          | none => none
        | none => none
      | none => none
  else none

/-- `css_rgba2hex` on character lists. -/
def css_rgba2hexL (s : List Char) : List Char := scanL stepRgba s

/-- Step of `r"hsla\((\d+),\s*([\d.]+)%?,\s*([\d.]+)%?,\s*([\d.]+)\)"` via
`hsla_to_hex`. -/
def stepHsla (s : List Char) : Option (List Char × List Char) :=
  if isPre ("hsla(".data) s then
    let r0 := s.drop 5
    let d1 := leadCount isDigitC r0
    if d1 == 0 then none else
      match parseCommaFloat (r0.drop d1) with
      | some (fs2, r2) =>
        match parseCommaFloat r2 with
        | some (fs3, r3) =>
          match parseCommaFloatNoPct r3 with
          | some (fs4, r4) =>
            if isPre [')'] r4 then
              some (hsla_to_hexL (parseNatL (r0.take d1)) (parseFracL fs2) (parseFracL fs3)
                (parseFracL fs4), r4.drop 1)
            else none
          | none => none
        | none => none
      | none => none
  else none

/-- `css_hsla2hex` on character lists. -/
def css_hsla2hexL (s : List Char) : List Char := scanL stepHsla s

/-- Step of `r"[^\}\{]+\{\}"` replaced by nothing: a maximal nonempty run of
non-brace characters directly followed by `{}` is deleted. -/
def stepEmpty (s : List Char) : Option (List Char × List Char) :=
  match s with
  | c :: _ =>
    if c == '{' || c == '}' then none else
      let n := leadCount (fun x => !(x == '{' || x == '}')) s
      if isPre ("{}".data) (s.drop n) then some ([], (s.drop n).drop 2) else none
  | [] => none

/-- `css_remove_empty_rules` on character lists. -/
def css_remove_empty_rulesL (s : List Char) : List Char := scanL stepEmpty s

/-- `css_font_weights` on character lists: the two literal replaces. -/
def css_font_weightsL (s : List Char) : List Char :=
  replaceAllL ("font-weight:bold".data) ("font-weight:700".data)
    (replaceAllL ("font-weight:normal".data) ("font-weight:400".data) s)

/-- `minify_css` on character lists: all stages in source order. -/
def minify_cssL (css : List Char) : List Char :=
  css_font_weightsL (css_remove_empty_rulesL (css_hsla2hexL (css_rgba2hexL
    (css_shorten_hexL (css_sub_clrsL (css_hsl2hexL (css_rgb2hexL
      (css_shorten_floatsL (css_sub_zero_unitsL (css_none_to_zeroL
        (css_remove_semicolonsL (css_remove_url_quotesL (css_unquote_selectorsL
          (css_remove_whitespaceL (css_remove_commentsL css)))))))))))))))

/-- The `css_remove_comments` rule on strings. -/
def css_remove_comments (s : String) : String := ⟨css_remove_commentsL s.data⟩

/-- The `css_remove_whitespace` rule on strings. -/
def css_remove_whitespace (s : String) : String := ⟨css_remove_whitespaceL s.data⟩

/-- The `css_unquote_selectors` rule on strings. -/
def css_unquote_selectors (s : String) : String := ⟨css_unquote_selectorsL s.data⟩

/-- The `css_remove_url_quotes` rule on strings. -/
def css_remove_url_quotes (s : String) : String := ⟨css_remove_url_quotesL s.data⟩

/-- The `css_remove_semicolons` rule on strings. -/
def css_remove_semicolons (s : String) : String := ⟨css_remove_semicolonsL s.data⟩

/-- The `css_none_to_zero` rule on strings. -/
def css_none_to_zero (s : String) : String := ⟨css_none_to_zeroL s.data⟩

/-- The `css_sub_zero_units` rule on strings. -/
def css_sub_zero_units (s : String) : String := ⟨css_sub_zero_unitsL s.data⟩

/-- The `css_shorten_floats` rule on strings. -/
def css_shorten_floats (s : String) : String := ⟨css_shorten_floatsL s.data⟩

/-- The `css_rgb2hex` rule on strings. -/
def css_rgb2hex (s : String) : String := ⟨css_rgb2hexL s.data⟩

/-- The `css_hsl2hex` rule on strings. -/
def css_hsl2hex (s : String) : String := ⟨css_hsl2hexL s.data⟩

/-- The `css_sub_clrs` rule on strings. -/
def css_sub_clrs (s : String) : String := ⟨css_sub_clrsL s.data⟩

/-- The `css_shorten_hex` rule on strings. -/
def css_shorten_hex (s : String) : String := ⟨css_shorten_hexL s.data⟩

/-- The `css_rgba2hex` rule on strings. -/
def css_rgba2hex (s : String) : String := ⟨css_rgba2hexL s.data⟩

/-- The `css_hsla2hex` rule on strings. -/
def css_hsla2hex (s : String) : String := ⟨css_hsla2hexL s.data⟩

/-- The `css_remove_empty_rules` rule on strings. -/
def css_remove_empty_rules (s : String) : String := ⟨css_remove_empty_rulesL s.data⟩

/-- The `css_font_weights` rule on strings. -/
def css_font_weights (s : String) : String := ⟨css_font_weightsL s.data⟩

/-- The full pipeline `minify_css` on strings. -/
def minify_css (css : String) : String := ⟨minify_cssL css.data⟩

/-- Soundness of a scanner step: the replacement is at most as long as the
consumed region, and the consumed region is nonempty. -/
def StepSound (step : List Char → Option (List Char × List Char)) : Prop :=
  ∀ s out rest, step s = some (out, rest) →
    out.length + rest.length ≤ s.length ∧ rest.length < s.length

theorem leadCount_le (p : Char → Bool) : ∀ s : List Char, leadCount p s ≤ s.length := by
  intro s
  induction s with
  | nil => simp [leadCount]
  | cons c cs ih =>
    simp only [leadCount, List.length_cons]
    split
    · exact Nat.succ_le_succ ih
    · exact Nat.zero_le _

theorem isPre_length : ∀ n s : List Char, isPre n s = true → n.length ≤ s.length := by
  intro n
  induction n with
  | nil => intro s _; simp
  | cons a as ih =>
    intro s h
    cases s with
    | nil => simp [isPre] at h
    | cons b bs =>
      simp only [isPre, Bool.and_eq_true] at h
      simpa using Nat.succ_le_succ (ih bs h.2)

theorem isPre_append_self : ∀ n t : List Char, isPre n (n ++ t) = true := by
  intro n
  induction n with
  | nil => intro t; simp [isPre]
  | cons a as ih => intro t; simp [isPre, ih t]

theorem isPre_exists : ∀ n s : List Char, isPre n s = true → ∃ t, s = n ++ t := by
  intro n
  induction n with
  | nil => intro s _; exact ⟨s, rfl⟩
  | cons a as ih =>
    intro s h
    cases s with
    | nil => simp [isPre] at h
    | cons b bs =>
      simp only [isPre, Bool.and_eq_true, beq_iff_eq] at h
      obtain ⟨t, ht⟩ := ih bs h.2
      exact ⟨t, by simp [h.1, ht]⟩

theorem isPre_mem : ∀ n s : List Char, isPre n s = true → ∀ c ∈ n, c ∈ s := by
  intro n s h c hc
  obtain ⟨t, ht⟩ := isPre_exists n s h
  subst ht
  exact List.mem_append_left _ hc

theorem occursL_append_right (n : List Char) :
    ∀ p t : List Char, isPre n t = true → occursL n (p ++ t) = true := by
  intro p
  induction p with
  | nil =>
    intro t h
    cases t with
    | nil => simpa [occursL] using h
    | cons c cs => simp [occursL, h]
  | cons a ps ih =>
    intro t h
    simp [occursL, ih t h]

theorem findSub_spec (n : List Char) :
    ∀ l j, findSub n l = some j → isPre n (l.drop j) = true ∧ j + n.length ≤ l.length := by
  intro l
  induction l with
  | nil =>
    intro j h
    simp only [findSub] at h
    split at h
    · cases h
      constructor
      · simpa [List.drop] using (by assumption : isPre n [] = true)
      · simpa using isPre_length n [] (by assumption)
    · cases h
  | cons c cs ih =>
    intro j h
    simp only [findSub] at h
    split at h
    · cases h
      refine ⟨by simpa using (by assumption : isPre n (c :: cs) = true), ?_⟩
      simpa using isPre_length n (c :: cs) (by assumption)
    · cases heq : findSub n cs with
      | some k =>
        rw [heq] at h
        cases h
        obtain ⟨h1, h2⟩ := ih k heq
        exact ⟨by simpa using h1, by simpa [Nat.succ_add] using Nat.succ_le_succ h2⟩
      | none => rw [heq] at h; cases h

theorem dropWhile_length_le (p : Char → Bool) :
    ∀ l : List Char, (l.dropWhile p).length ≤ l.length := by
  intro l
  induction l with
  | nil => simp
  | cons c cs ih =>
    simp only [List.dropWhile]
    split
    · exact Nat.le_succ_of_le ih
    · simp

theorem dropWhile_head_not (p : Char → Bool) :
    ∀ (l : List Char) (c : Char) (r : List Char), l.dropWhile p = c :: r → p c = false := by
  intro l
  induction l with
  | nil => intro c r h; simp [List.dropWhile] at h
  | cons a as ih =>
    intro c r h
    simp only [List.dropWhile] at h
    split at h
    · exact ih c r h
    · cases h; assumption

theorem dropWhile_eq_self_of_not (p : Char → Bool) :
    ∀ l : List Char, (∀ c ∈ l, p c = false) → l.dropWhile p = l := by
  intro l
  induction l with
  | nil => intro _; simp
  | cons a as ih =>
    intro h
    simp only [List.dropWhile]
    rw [h a (by simp)]

theorem scanF_len (step : List Char → Option (List Char × List Char)) (hs : StepSound step) :
    ∀ f s, (scanF step f s).length ≤ s.length := by
  intro f
  induction f with
  | zero => intro s; simp [scanF]
  | succ f ih =>
    intro s
    cases s with
    | nil => simp [scanF]
    | cons c cs =>
      simp only [scanF]
      cases hstep : step (c :: cs) with
      | none =>
        simpa [List.length_cons] using Nat.succ_le_succ (ih cs)
      | some pr =>
        obtain ⟨out, rest⟩ := pr
        obtain ⟨h1, _⟩ := hs _ _ _ hstep
        simp only [List.length_append]
        calc out.length + (scanF step f rest).length
            ≤ out.length + rest.length := Nat.add_le_add_left (ih rest) _
          _ ≤ (c :: cs).length := h1

theorem scanF_congr (step : List Char → Option (List Char × List Char)) (hs : StepSound step) :
    ∀ f g s, s.length ≤ f → s.length ≤ g → scanF step f s = scanF step g s := by
  intro f
  induction f with
  | zero =>
    intro g s hf _
    have : s = [] := List.length_eq_zero.mp (Nat.le_zero.mp hf)
    subst this
    cases g <;> simp [scanF]
  | succ f ih =>
    intro g s hf hg
    cases s with
    | nil => cases g <;> simp [scanF]
    | cons c cs =>
      cases g with
      | zero => simp at hg
      | succ g =>
        simp only [scanF]
        cases hstep : step (c :: cs) with
        | none =>
          have h1 : cs.length ≤ f := by simpa using hf
          have h2 : cs.length ≤ g := by simpa using hg
          show c :: scanF step f cs = c :: scanF step g cs
          rw [ih g cs h1 h2]
        | some pr =>
          obtain ⟨out, rest⟩ := pr
          obtain ⟨_, hlt⟩ := hs _ _ _ hstep
          have h1 : rest.length ≤ f := by
            have := Nat.lt_of_lt_of_le hlt hf
            omega
          have h2 : rest.length ≤ g := by
            have := Nat.lt_of_lt_of_le hlt hg
            omega
          show out ++ scanF step f rest = out ++ scanF step g rest
          rw [ih g rest h1 h2]

theorem scanL_len (step : List Char → Option (List Char × List Char)) (hs : StepSound step)
    (s : List Char) : (scanL step s).length ≤ s.length :=
  scanF_len step hs s.length s

theorem scanL_fire (step : List Char → Option (List Char × List Char)) (hs : StepSound step)
    (s out rest : List Char) (h : step s = some (out, rest)) :
    scanL step s = out ++ scanL step rest := by
  cases s with
  | nil =>
    obtain ⟨_, hlt⟩ := hs _ _ _ h
    simp at hlt
  | cons c cs =>
    obtain ⟨_, hlt⟩ := hs _ _ _ h
    simp only [scanL, List.length_cons, scanF, h]
    congr 1
    exact scanF_congr step hs cs.length rest.length rest (by simpa using Nat.lt_succ_iff.mp hlt)
      (Nat.le_refl _)

theorem scanL_cons_none (step : List Char → Option (List Char × List Char)) (c : Char)
    (cs : List Char) (h : step (c :: cs) = none) : scanL step (c :: cs) = c :: scanL step cs := by
  simp only [scanL, List.length_cons, scanF, h]

theorem scanF_noop (step : List Char → Option (List Char × List Char)) :
    ∀ f s, (∀ p t, p ++ t = s → step t = none) → scanF step f s = s := by
  intro f
  induction f with
  | zero => intro s _; simp [scanF]
  | succ f ih =>
    intro s h
    cases s with
    | nil => simp [scanF]
    | cons c cs =>
      have hstep : step (c :: cs) = none := h [] (c :: cs) rfl
      simp only [scanF, hstep]
      have := ih cs (fun p t hpt => h (c :: p) t (by simp [hpt]))
      rw [this]

theorem scanL_noop (step : List Char → Option (List Char × List Char)) (s : List Char)
    (h : ∀ p t, p ++ t = s → step t = none) : scanL step s = s :=
  scanF_noop step s.length s h

theorem replStep_sound (needle repl : List Char) (hne : needle ≠ [])
    (hle : repl.length ≤ needle.length) : StepSound (replStep needle repl) := by
  intro s out rest h
  simp only [replStep] at h
  split at h
  · cases h
  · split at h
    · cases h
      have hp : isPre needle s = true := by assumption
      have hlen := isPre_length needle s hp
      have hnl : 1 ≤ needle.length := by
        cases needle with
        | nil => exact absurd rfl hne
        | cons a as => simp
      rw [List.length_drop]
      omega
    · cases h

theorem replaceAllL_len (needle repl s : List Char) (hne : needle ≠ [])
    (hle : repl.length ≤ needle.length) : (replaceAllL needle repl s).length ≤ s.length :=
  scanL_len _ (replStep_sound needle repl hne hle) s

theorem replStep_fire (needle repl t : List Char) (hne : needle ≠ []) :
    replStep needle repl (needle ++ t) = some (repl, t) := by
  have h1 : needle.isEmpty = false := by
    cases needle with
    | nil => exact absurd rfl hne
    | cons a as => rfl
  simp [replStep, h1, isPre_append_self, List.drop_left]

theorem replaceAllL_fire (needle repl t : List Char) (hne : needle ≠ [])
    (hle : repl.length ≤ needle.length) :
    replaceAllL needle repl (needle ++ t) = repl ++ replaceAllL needle repl t :=
  scanL_fire _ (replStep_sound needle repl hne hle) _ _ _ (replStep_fire needle repl t hne)

theorem replaceAllL_noop (needle repl s : List Char) (h : occursL needle s = false) :
    replaceAllL needle repl s = s := by
  apply scanL_noop
  intro p t hpt
  simp only [replStep]
  split
  · rfl
  · split
    · exfalso
      have : occursL needle s = true := by
        rw [← hpt]
        exact occursL_append_right needle p t (by assumption)
      rw [h] at this
      cases this
    · rfl

theorem stripL_len (s : List Char) : (stripL s).length ≤ s.length := by
  simp only [stripL, List.length_reverse]
  calc ((s.dropWhile isWS).reverse.dropWhile isWS).length
      ≤ (s.dropWhile isWS).reverse.length := dropWhile_length_le isWS _
    _ = (s.dropWhile isWS).length := List.length_reverse _
    _ ≤ s.length := dropWhile_length_le isWS s

theorem stripL_noop (s : List Char) (h : ∀ c ∈ s, isWS c = false) : stripL s = s := by
  simp only [stripL]
  rw [dropWhile_eq_self_of_not isWS s h]
  rw [dropWhile_eq_self_of_not isWS s.reverse (fun c hc => h c (List.mem_reverse.mp hc))]
  exact List.reverse_reverse s

theorem drop_eq_cons_length (s : List Char) (w : Nat) (c : Char) (r : List Char)
    (h : s.drop w = c :: r) : s.length = w + 1 + r.length ∧ w < s.length := by
  have h1 : (s.drop w).length = r.length + 1 := by rw [h]; simp
  rw [List.length_drop] at h1
  omega

theorem leadCount_take_sat (p : Char → Bool) :
    ∀ s : List Char, ∀ c ∈ s.take (leadCount p s), p c = true := by
  intro s
  induction s with
  | nil => intro c hc; simp at hc
  | cons a as ih =>
    intro c hc
    simp only [leadCount] at hc
    by_cases hp : p a = true
    · rw [if_pos hp] at hc
      simp only [List.take_succ_cons, List.mem_cons] at hc
      rcases hc with hc | hc
      · rw [hc]; exact hp
      · exact ih c hc
    · rw [if_neg (by simpa using hp)] at hc
      simp at hc

theorem digit_sub_le (c : Char) (hc : isDigitC c = true) : c.toNat - 48 ≤ 9 := by
  simp only [isDigitC, Bool.and_eq_true, decide_eq_true_eq] at hc
  omega

theorem parseNatL_fold_lt (a : Nat) :
    ∀ ds : List Char, (∀ c ∈ ds, isDigitC c = true) →
      List.foldl (fun a c => a * 10 + (c.toNat - 48)) a ds < (a + 1) * 10 ^ ds.length := by
  intro ds
  induction ds generalizing a with
  | nil => intro _; simp
  | cons c cs ih =>
    intro h
    have hd : c.toNat - 48 ≤ 9 := digit_sub_le c (h c (by simp))
    have := ih (a * 10 + (c.toNat - 48)) (fun x hx => h x (by simp [hx]))
    calc List.foldl (fun a c => a * 10 + (c.toNat - 48)) (a * 10 + (c.toNat - 48)) cs
        < (a * 10 + (c.toNat - 48) + 1) * 10 ^ cs.length := this
      _ ≤ ((a + 1) * 10) * 10 ^ cs.length := by
          have : a * 10 + (c.toNat - 48) + 1 ≤ (a + 1) * 10 := by omega
          exact Nat.mul_le_mul_right _ this
      _ = (a + 1) * 10 ^ (c :: cs).length := by
          rw [List.length_cons, pow_succ]
          ring

theorem parseNatL_lt (ds : List Char) (h : ∀ c ∈ ds, isDigitC c = true) :
    parseNatL ds < 10 ^ ds.length := by
  have := parseNatL_fold_lt 0 ds h
  simpa [parseNatL] using this

theorem hexDigitsAux_ne_nil : ∀ f n, 1 ≤ (hexDigitsAux f n).length := by
  intro f
  induction f with
  | zero => intro n; simp [hexDigitsAux]
  | succ f ih =>
    intro n
    simp only [hexDigitsAux]
    split
    · simp
    · simp

theorem hexDigitsAux_len : ∀ f n k, n ≤ f → n < 16 ^ k → 1 ≤ k →
    (hexDigitsAux f n).length ≤ k := by
  intro f
  induction f with
  | zero => intro n k _ _ hk; simpa [hexDigitsAux] using hk
  | succ f ih =>
    intro n k hn hnk hk
    simp only [hexDigitsAux]
    split
    · simpa using hk
    · have h16 : 16 ≤ n := Nat.le_of_not_lt (by assumption)
      have hk2 : 2 ≤ k := by
        by_contra hlt
        have : k = 1 := by omega
        rw [this] at hnk
        simp at hnk
        omega
      have hdiv_le : n / 16 ≤ f := by
        have h1 : n / 16 < n := Nat.div_lt_self (by omega) (by omega)
        omega
      have hdiv_lt : n / 16 < 16 ^ (k - 1) := by
        have h1 : n < 16 ^ k := hnk
        have h2 : 16 ^ k = 16 * 16 ^ (k - 1) := by
          conv_lhs => rw [show k = 1 + (k - 1) by omega]
          rw [pow_add, pow_one]
        rw [h2] at h1
        omega
      have := ih (n / 16) (k - 1) hdiv_le hdiv_lt (by omega)
      simp only [List.length_append, List.length_cons, List.length_nil]
      omega

theorem hexDigits_len_le (n k : Nat) (h : n < 16 ^ k) (hk : 1 ≤ k) :
    (hexDigits n).length ≤ k :=
  hexDigitsAux_len n n k (Nat.le_refl n) h hk

theorem hex2_len_digits (ds : List Char) (hd : ∀ c ∈ ds, isDigitC c = true)
    (hne : 1 ≤ ds.length) : (hex2 (parseNatL ds)).length ≤ ds.length + 1 := by
  have h1 : parseNatL ds < 16 ^ ds.length := by
    calc parseNatL ds < 10 ^ ds.length := parseNatL_lt ds hd
      _ ≤ 16 ^ ds.length := Nat.pow_le_pow_left (by omega) _
  have h2 : (hexDigits (parseNatL ds)).length ≤ ds.length := hexDigits_len_le _ _ h1 hne
  simp only [hex2]
  split
  · simp only [List.length_cons]
    omega
  · omega

theorem hex2_byte_len (v : Nat) (h : v ≤ 255) : (hex2 v).length = 2 := by
  have h1 : (hexDigits v).length ≤ 2 := hexDigits_len_le v 2 (by norm_num; omega) (by omega)
  have h2 : 1 ≤ (hexDigits v).length := hexDigitsAux_ne_nil v v
  simp only [hex2]
  split
  · rename_i heq
    have h4 : (hexDigits v).length = 1 := by simpa using heq
    simp only [List.length_cons]
    omega
  · rename_i hne
    have h3 : (hexDigits v).length ≠ 1 := by
      intro hx
      exact hne (by simp [hx])
    omega

theorem fracToByte_le (x : Frac) : fracToByte x ≤ 255 := Nat.min_le_left 255 _

theorem alphaByte_len (a : Frac) : (hex2 (alphaByte a)).length = 2 :=
  hex2_byte_len _ (fracToByte_le _)

theorem stepComments_sound : StepSound stepComments := by
  intro s out rest h
  simp only [stepComments] at h
  split at h
  · rename_i hpre
    cases hf : findSub ("*/".data) (s.drop 2) with
    | some j =>
      simp only [hf] at h
      cases h
      obtain ⟨_, hj⟩ := findSub_spec ("*/".data) (s.drop 2) j hf
      have hl2 : ("*/".data).length = 2 := rfl
      rw [hl2, List.length_drop] at hj
      have hs2 : 2 ≤ s.length := by
        simpa using isPre_length _ s hpre
      simp only [List.length_nil, List.length_drop]
      omega
    | none => simp only [hf] at h; cases h
  · cases h

theorem stepWS_sound : StepSound stepWS := by
  intro s out rest h
  simp only [stepWS] at h
  cases hd : s.drop (leadCount isWS s) with
  | nil => simp only [hd] at h; cases h
  | cons p r2 =>
    simp only [hd] at h
    split at h
    · cases h
      obtain ⟨hs1, hs2⟩ := drop_eq_cons_length s _ p r2 hd
      have h3 : leadCount isWS r2 ≤ r2.length := leadCount_le _ _
      simp only [List.length_cons, List.length_nil, List.length_drop]
      omega
    · cases h

theorem stepSemi_sound : StepSound stepSemi := by
  intro s out rest h
  simp only [stepSemi] at h
  split at h
  · rename_i hpre
    cases h
    have hs2 : 2 ≤ s.length := by simpa using isPre_length _ s hpre
    have h1 : ((s.drop 2).dropWhile (· == ';')).length ≤ (s.drop 2).length :=
      dropWhile_length_le _ _
    rw [List.length_drop] at h1
    simp only [List.length_nil]
    omega
  · cases h

theorem stepNone_sound : StepSound stepNone := by
  intro s out rest h
  simp only [stepNone] at h
  split at h
  · rename_i hpre
    cases h
    have hs : 11 ≤ s.length := by simpa using isPre_length _ s hpre
    simp only [List.length_drop, List.length_cons, List.length_nil]
    omega
  · split at h
    · rename_i hpre
      cases h
      have hs : 12 ≤ s.length := by simpa using isPre_length _ s hpre
      simp only [List.length_drop, List.length_cons, List.length_nil]
      omega
    · cases h

theorem matchUnit_spec : ∀ us s u, matchUnit us s = some u → u ∈ us ∧ isPre u s = true := by
  intro us
  induction us with
  | nil => intro s u h; simp [matchUnit] at h
  | cons a as ih =>
    intro s u h
    simp only [matchUnit] at h
    split at h
    · cases h
      exact ⟨by simp, by assumption⟩
    · obtain ⟨h1, h2⟩ := ih s u h
      exact ⟨by simp [h1], h2⟩

theorem unitList_len : ∀ u ∈ unitList, 1 ≤ u.length := by decide

theorem stepUnits_sound : StepSound stepUnits := by
  intro s out rest h
  cases s with
  | nil => simp [stepUnits] at h
  | cons c r1 =>
    simp only [stepUnits] at h
    split at h
    · rename_i hcond
      cases hm : matchUnit unitList (r1.drop 1) with
      | some u =>
        simp only [hm] at h
        cases h
        obtain ⟨hmem, hpre⟩ := matchUnit_spec unitList (r1.drop 1) u hm
        have hu1 : 1 ≤ u.length := unitList_len u hmem
        have hu2 : u.length ≤ (r1.drop 1).length := isPre_length _ _ hpre
        have hr1 : 1 ≤ r1.length := by
          have := isPre_length ['0'] r1 (by
            have := hcond
            simp only [Bool.and_eq_true] at this
            exact this.2)
          simpa using this
        simp only [List.length_cons, List.length_nil, List.length_drop]
        rw [List.length_drop] at hu2
        omega
      | none => simp only [hm] at h; cases h
    · cases h

theorem stepFloat_sound : StepSound stepFloat := by
  intro s out rest h
  cases s with
  | nil => simp [stepFloat] at h
  | cons c r1 =>
    simp only [stepFloat] at h
    split at h
    · split at h
      · cases h
      · split at h
        · rename_i hz hdot
          split at h
          · cases h
          · rename_i hd
            cases h
            have h1 : leadCount (· == '0') r1 ≤ r1.length := leadCount_le _ _
            have h2 : 1 ≤ (r1.drop (leadCount (· == '0') r1)).length := by
              simpa using isPre_length _ _ hdot
            have h3 :
                leadCount isDigitC ((r1.drop (leadCount (· == '0') r1)).drop 1) ≤
                  ((r1.drop (leadCount (· == '0') r1)).drop 1).length := leadCount_le _ _
            have hz1 : 1 ≤ leadCount (· == '0') r1 := by
              rcases Nat.eq_zero_or_pos (leadCount (· == '0') r1) with h0 | h0
              · exact absurd (by simpa using h0) hz
              · exact h0
            simp only [List.length_cons, List.length_nil, List.length_drop,
              List.length_take] at *
            omega
        · cases h
    · cases h

theorem stepUnquote_sound : StepSound stepUnquote := by
  intro s out rest h
  simp only [stepUnquote] at h
  split at h
  · cases h
  · split at h
    · split at h
      · cases h
      · split at h
        · rename_i ha heq hv hcl
          cases h
          have h1 : leadCount isAlphaC s ≤ s.length := leadCount_le _ _
          have h2 : 2 ≤ (s.drop (leadCount isAlphaC s)).length := by
            simpa using isPre_length _ _ heq
          have h3 :
              leadCount isValC ((s.drop (leadCount isAlphaC s)).drop 2) ≤
                ((s.drop (leadCount isAlphaC s)).drop 2).length := leadCount_le _ _
          have h4 :
              2 ≤ (((s.drop (leadCount isAlphaC s)).drop 2).drop
                (leadCount isValC ((s.drop (leadCount isAlphaC s)).drop 2))).length := by
            simpa using isPre_length _ _ hcl
          simp only [List.length_append, List.length_cons, List.length_nil,
            List.length_drop, List.length_take] at *
          omega
        · cases h
    · cases h

theorem stepUrl_sound : StepSound stepUrl := by
  intro s out rest h
  simp only [stepUrl] at h
  split at h
  · rename_i hpre
    cases hd : s.drop 4 with
    | nil => simp only [hd] at h; cases h
    | cons q r2 =>
      simp only [hd] at h
      split at h
      · split at h
        · rename_i hq hcl
          cases h
          obtain ⟨hs1, hs2⟩ := drop_eq_cons_length s 4 q r2 hd
          have hb : leadCount (fun c => !(c == ')')) r2 ≤ r2.length := leadCount_le _ _
          have h2 :
              2 ≤ (r2.drop (leadCount (fun c => !(c == ')')) r2 - 1)).length := by
            simpa using isPre_length _ _ hcl
          simp only [List.length_append, List.length_cons, List.length_nil,
            List.length_drop, List.length_take] at *
          omega
        · cases h
      · cases h
  · cases h

theorem stepHex_sound : StepSound stepHex := by
  intro s out rest h
  cases s with
  | nil => simp [stepHex] at h
  | cons a r =>
    simp only [stepHex] at h
    split at h
    · split at h
      · rename_i c0 c1 c2 c3 c4 c5 htake
        have hlen : 6 ≤ r.length := by
          have h6 : (r.take 6).length = 6 := by rw [htake]; rfl
          rw [List.length_take] at h6
          omega
        split at h
        · split at h
          · cases h
            simp only [List.length_cons, List.length_nil, List.length_drop]
            omega
          · cases h
            simp only [List.length_cons, List.length_nil, List.length_drop]
            omega
        · cases h
      · cases h
    · cases h

theorem stepEmpty_sound : StepSound stepEmpty := by
  intro s out rest h
  cases s with
  | nil => simp [stepEmpty] at h
  | cons c cs =>
    simp only [stepEmpty] at h
    split at h
    · cases h
    · split at h
      · rename_i hbr hpre
        cases h
        have h1 : leadCount (fun x => !(x == '{' || x == '}')) (c :: cs) ≤ (c :: cs).length :=
          leadCount_le _ _
        have h2 : 2 ≤ ((c :: cs).drop (leadCount (fun x => !(x == '{' || x == '}')) (c :: cs))).length := by
          simpa using isPre_length _ _ hpre
        simp only [List.length_cons, List.length_nil, List.length_drop] at *
        omega
      · cases h

theorem parseCommaNum_spec (s ds rest : List Char) (h : parseCommaNum s = some (ds, rest)) :
    (∀ c ∈ ds, isDigitC c = true) ∧ 1 ≤ ds.length ∧ ds.length + rest.length + 1 ≤ s.length := by
  simp only [parseCommaNum] at h
  split at h
  · rename_i hc
    split at h
    · cases h
    · rename_i hd
      cases h
      have h1 : 1 ≤ s.length := by simpa using isPre_length _ _ hc
      have h2 : leadCount isWS (s.drop 1) ≤ (s.drop 1).length := leadCount_le _ _
      have h3 :
          leadCount isDigitC ((s.drop 1).drop (leadCount isWS (s.drop 1))) ≤
            ((s.drop 1).drop (leadCount isWS (s.drop 1))).length := leadCount_le _ _
      have h4 : leadCount isDigitC ((s.drop 1).drop (leadCount isWS (s.drop 1))) ≠ 0 := by
        intro hx
        exact hd (by simpa using hx)
      refine ⟨leadCount_take_sat isDigitC _, ?_, ?_⟩
      · simp only [List.length_take, List.length_drop] at *
        omega
      · simp only [List.length_take, List.length_drop] at *
        omega
  · cases h

theorem parseCommaFloat_spec (s ds rest : List Char) (h : parseCommaFloat s = some (ds, rest)) :
    1 ≤ ds.length ∧ ds.length + rest.length + 1 ≤ s.length := by
  simp only [parseCommaFloat] at h
  split at h
  · rename_i hc
    split at h
    · cases h
    · rename_i hd
      have h1 : 1 ≤ s.length := by simpa using isPre_length _ _ hc
      have h2 : leadCount isWS (s.drop 1) ≤ (s.drop 1).length := leadCount_le _ _
      have h3 :
          leadCount isDotDigit ((s.drop 1).drop (leadCount isWS (s.drop 1))) ≤
            ((s.drop 1).drop (leadCount isWS (s.drop 1))).length := leadCount_le _ _
      have h4 : leadCount isDotDigit ((s.drop 1).drop (leadCount isWS (s.drop 1))) ≠ 0 := by
        intro hx
        exact hd (by simpa using hx)
      split at h
      · cases h
        constructor
        · simp only [List.length_take, List.length_drop] at *
          omega
        · simp only [List.length_take, List.length_drop] at *
          omega
      · cases h
        constructor
        · simp only [List.length_take, List.length_drop] at *
          omega
        · simp only [List.length_take, List.length_drop] at *
          omega
  · cases h

theorem parseCommaFloatNoPct_spec (s ds rest : List Char)
    (h : parseCommaFloatNoPct s = some (ds, rest)) :
    1 ≤ ds.length ∧ ds.length + rest.length + 1 ≤ s.length := by
  simp only [parseCommaFloatNoPct] at h
  split at h
  · rename_i hc
    split at h
    · cases h
    · rename_i hd
      cases h
      have h1 : 1 ≤ s.length := by simpa using isPre_length _ _ hc
      have h2 : leadCount isWS (s.drop 1) ≤ (s.drop 1).length := leadCount_le _ _
      have h3 :
          leadCount isDotDigit ((s.drop 1).drop (leadCount isWS (s.drop 1))) ≤
            ((s.drop 1).drop (leadCount isWS (s.drop 1))).length := leadCount_le _ _
      have h4 : leadCount isDotDigit ((s.drop 1).drop (leadCount isWS (s.drop 1))) ≠ 0 := by
        intro hx
        exact hd (by simpa using hx)
      constructor
      · simp only [List.length_take, List.length_drop] at *
        omega
      · simp only [List.length_take, List.length_drop] at *
        omega
  · cases h

theorem hsl_rgb_le1 (h : Nat) (s l : Frac) : (hsl_rgb h s l).1 ≤ 255 := fracToByte_le _

theorem hsl_rgb_le2 (h : Nat) (s l : Frac) : (hsl_rgb h s l).2.1 ≤ 255 := fracToByte_le _

theorem hsl_rgb_le3 (h : Nat) (s l : Frac) : (hsl_rgb h s l).2.2 ≤ 255 := fracToByte_le _

theorem hsl_to_hexL_len (h : Nat) (s l : Frac) : (hsl_to_hexL h s l).length = 7 := by
  simp only [hsl_to_hexL, List.length_cons, List.length_append]
  rw [hex2_byte_len _ (hsl_rgb_le1 h s l), hex2_byte_len _ (hsl_rgb_le2 h s l),
    hex2_byte_len _ (hsl_rgb_le3 h s l)]

theorem hsla_to_hexL_len (h : Nat) (s l a : Frac) : (hsla_to_hexL h s l a).length = 9 := by
  simp only [hsla_to_hexL, List.length_cons, List.length_append]
  rw [hex2_byte_len _ (hsl_rgb_le1 h s l), hex2_byte_len _ (hsl_rgb_le2 h s l),
    hex2_byte_len _ (hsl_rgb_le3 h s l), alphaByte_len]

theorem take_len_of_lead (p : Char → Bool) (s : List Char) :
    (s.take (leadCount p s)).length = leadCount p s := by
  rw [List.length_take]
  have := leadCount_le p s
  omega

theorem hex2_lead_len (s : List Char) (hne : leadCount isDigitC s ≠ 0) :
    (hex2 (parseNatL (s.take (leadCount isDigitC s)))).length ≤ leadCount isDigitC s + 1 := by
  have h1 := hex2_len_digits (s.take (leadCount isDigitC s)) (leadCount_take_sat isDigitC s)
    (by rw [take_len_of_lead]; omega)
  rw [take_len_of_lead] at h1
  exact h1

theorem stepRgb_sound : StepSound stepRgb := by
  intro s out rest h
  simp only [stepRgb] at h
  split at h
  · rename_i hpre
    split at h
    · cases h
    · rename_i hd1
      cases hp2 : parseCommaNum ((s.drop 4).drop (leadCount isDigitC (s.drop 4))) with
      | none => simp only [hp2] at h; cases h
      | some pr2 =>
        obtain ⟨ds2, r2⟩ := pr2
        simp only [hp2] at h
        cases hp3 : parseCommaNum r2 with
        | none => simp only [hp3] at h; cases h
        | some pr3 =>
          obtain ⟨ds3, r3⟩ := pr3
          simp only [hp3] at h
          split at h
          · rename_i hcl
            cases h
            obtain ⟨hd2dig, hd2len, hlen2⟩ := parseCommaNum_spec _ _ _ hp2
            obtain ⟨hd3dig, hd3len, hlen3⟩ := parseCommaNum_spec _ _ _ hp3
            have hs4 : 4 ≤ s.length := by simpa using isPre_length _ _ hpre
            have hld : leadCount isDigitC (s.drop 4) ≤ (s.drop 4).length := leadCount_le _ _
            have hd1' : leadCount isDigitC (s.drop 4) ≠ 0 := by
              intro hx
              exact hd1 (by simpa using hx)
            have hr3 : 1 ≤ r3.length := by simpa using isPre_length _ _ hcl
            have hx1 := hex2_lead_len (s.drop 4) hd1'
            have hx2 : (hex2 (parseNatL ds2)).length ≤ ds2.length + 1 :=
              hex2_len_digits _ hd2dig hd2len
            have hx3 : (hex2 (parseNatL ds3)).length ≤ ds3.length + 1 :=
              hex2_len_digits _ hd3dig hd3len
            simp only [rgb_to_hexL, List.length_cons, List.length_append,
              List.length_drop] at *
            omega
          · cases h
  · cases h

theorem stepHsl_sound : StepSound stepHsl := by
  intro s out rest h
  simp only [stepHsl] at h
  split at h
  · rename_i hpre
    split at h
    · cases h
    · rename_i hd1
      cases hp2 : parseCommaFloat ((s.drop 4).drop (leadCount isDigitC (s.drop 4))) with
      | none => simp only [hp2] at h; cases h
      | some pr2 =>
        obtain ⟨fs2, r2⟩ := pr2
        simp only [hp2] at h
        cases hp3 : parseCommaFloat r2 with
        | none => simp only [hp3] at h; cases h
        | some pr3 =>
          obtain ⟨fs3, r3⟩ := pr3
          simp only [hp3] at h
          split at h
          · rename_i hcl
            cases h
            obtain ⟨hd2len, hlen2⟩ := parseCommaFloat_spec _ _ _ hp2
            obtain ⟨hd3len, hlen3⟩ := parseCommaFloat_spec _ _ _ hp3
            have hs4 : 4 ≤ s.length := by simpa using isPre_length _ _ hpre
            have hld : leadCount isDigitC (s.drop 4) ≤ (s.drop 4).length := leadCount_le _ _
            have hd1' : leadCount isDigitC (s.drop 4) ≠ 0 := by
              intro hx
              exact hd1 (by simpa using hx)
            have hr3 : 1 ≤ r3.length := by simpa using isPre_length _ _ hcl
            have hout := hsl_to_hexL_len (parseNatL ((s.drop 4).take (leadCount isDigitC (s.drop 4))))
              (parseFracL fs2) (parseFracL fs3)
            simp only [List.length_drop] at *
            omega
          · cases h
  · cases h

theorem stepRgba_sound : StepSound stepRgba := by
  intro s out rest h
  simp only [stepRgba] at h
  split at h
  · rename_i hpre
    split at h
    · cases h
    · rename_i hd1
      cases hp2 : parseCommaNum ((s.drop 5).drop (leadCount isDigitC (s.drop 5))) with
      | none => simp only [hp2] at h; cases h
      | some pr2 =>
        obtain ⟨ds2, r2⟩ := pr2
        simp only [hp2] at h
        cases hp3 : parseCommaNum r2 with
        | none => simp only [hp3] at h; cases h
        | some pr3 =>
          obtain ⟨ds3, r3⟩ := pr3
          simp only [hp3] at h
          cases hp4 : parseCommaFloatNoPct r3 with
          | none => simp only [hp4] at h; cases h
          | some pr4 =>
            obtain ⟨fs4, r4⟩ := pr4
            simp only [hp4] at h
            split at h
            · rename_i hcl
              cases h
              obtain ⟨hd2dig, hd2len, hlen2⟩ := parseCommaNum_spec _ _ _ hp2
              obtain ⟨hd3dig, hd3len, hlen3⟩ := parseCommaNum_spec _ _ _ hp3
              obtain ⟨hd4len, hlen4⟩ := parseCommaFloatNoPct_spec _ _ _ hp4
              have hs5 : 5 ≤ s.length := by simpa using isPre_length _ _ hpre
              have hld : leadCount isDigitC (s.drop 5) ≤ (s.drop 5).length := leadCount_le _ _
              have hd1' : leadCount isDigitC (s.drop 5) ≠ 0 := by
                intro hx
                exact hd1 (by simpa using hx)
              have hr4 : 1 ≤ r4.length := by simpa using isPre_length _ _ hcl
              have hx1 := hex2_lead_len (s.drop 5) hd1'
              have hx2 : (hex2 (parseNatL ds2)).length ≤ ds2.length + 1 :=
                hex2_len_digits _ hd2dig hd2len
              have hx3 : (hex2 (parseNatL ds3)).length ≤ ds3.length + 1 :=
                hex2_len_digits _ hd3dig hd3len
              have hx4 := alphaByte_len (parseFracL fs4)
              simp only [rgba_to_hexL, List.length_cons, List.length_append,
                List.length_drop] at *
              omega
            · cases h
  · cases h

theorem stepHsla_sound : StepSound stepHsla := by
  intro s out rest h
  simp only [stepHsla] at h
  split at h
  · rename_i hpre
    split at h
    · cases h
    · rename_i hd1
      cases hp2 : parseCommaFloat ((s.drop 5).drop (leadCount isDigitC (s.drop 5))) with
      | none => simp only [hp2] at h; cases h
      | some pr2 =>
        obtain ⟨fs2, r2⟩ := pr2
        simp only [hp2] at h
        cases hp3 : parseCommaFloat r2 with
        | none => simp only [hp3] at h; cases h
        | some pr3 =>
          obtain ⟨fs3, r3⟩ := pr3
          simp only [hp3] at h
          cases hp4 : parseCommaFloatNoPct r3 with
          | none => simp only [hp4] at h; cases h
          | some pr4 =>
            obtain ⟨fs4, r4⟩ := pr4
            simp only [hp4] at h
            split at h
            · rename_i hcl
              cases h
              obtain ⟨hd2len, hlen2⟩ := parseCommaFloat_spec _ _ _ hp2
              obtain ⟨hd3len, hlen3⟩ := parseCommaFloat_spec _ _ _ hp3
              obtain ⟨hd4len, hlen4⟩ := parseCommaFloatNoPct_spec _ _ _ hp4
              have hs5 : 5 ≤ s.length := by simpa using isPre_length _ _ hpre
              have hld : leadCount isDigitC (s.drop 5) ≤ (s.drop 5).length := leadCount_le _ _
              have hd1' : leadCount isDigitC (s.drop 5) ≠ 0 := by
                intro hx
                exact hd1 (by simpa using hx)
              have hr4 : 1 ≤ r4.length := by simpa using isPre_length _ _ hcl
              have hout := hsla_to_hexL_len
                (parseNatL ((s.drop 5).take (leadCount isDigitC (s.drop 5))))
                (parseFracL fs2) (parseFracL fs3) (parseFracL fs4)
              simp only [List.length_drop] at *
              omega
            · cases h
  · cases h

theorem css_remove_commentsL_len (s : List Char) :
    (css_remove_commentsL s).length ≤ s.length :=
  scanL_len _ stepComments_sound s

theorem css_remove_whitespaceL_len (s : List Char) :
    (css_remove_whitespaceL s).length ≤ s.length := by
  simp only [css_remove_whitespaceL]
  calc (stripL (replaceAllL (") and".data) (")and".data)
          (replaceAllL ("and (".data) ("and(".data) (scanL stepWS s)))).length
      ≤ (replaceAllL (") and".data) (")and".data)
          (replaceAllL ("and (".data) ("and(".data) (scanL stepWS s))).length := stripL_len _
    _ ≤ (replaceAllL ("and (".data) ("and(".data) (scanL stepWS s)).length :=
        replaceAllL_len _ _ _ (by decide) (by decide)
    _ ≤ (scanL stepWS s).length := replaceAllL_len _ _ _ (by decide) (by decide)
    _ ≤ s.length := scanL_len _ stepWS_sound s

theorem css_unquote_selectorsL_len (s : List Char) :
    (css_unquote_selectorsL s).length ≤ s.length :=
  scanL_len _ stepUnquote_sound s

theorem css_remove_url_quotesL_len (s : List Char) :
    (css_remove_url_quotesL s).length ≤ s.length :=
  scanL_len _ stepUrl_sound s

theorem css_remove_semicolonsL_len (s : List Char) :
    (css_remove_semicolonsL s).length ≤ s.length := by
  simp only [css_remove_semicolonsL]
  calc (scanL stepSemi (replaceAllL (";\x7d".data) ("\x7d".data) s)).length
      ≤ (replaceAllL (";\x7d".data) ("\x7d".data) s).length := scanL_len _ stepSemi_sound _
    _ ≤ s.length := replaceAllL_len _ _ _ (by decide) (by decide)

theorem css_none_to_zeroL_len (s : List Char) :
    (css_none_to_zeroL s).length ≤ s.length :=
  scanL_len _ stepNone_sound s

theorem css_sub_zero_unitsL_len (s : List Char) :
    (css_sub_zero_unitsL s).length ≤ s.length :=
  scanL_len _ stepUnits_sound s

theorem css_shorten_floatsL_len (s : List Char) :
    (css_shorten_floatsL s).length ≤ s.length :=
  scanL_len _ stepFloat_sound s

theorem css_rgb2hexL_len (s : List Char) : (css_rgb2hexL s).length ≤ s.length :=
  scanL_len _ stepRgb_sound s

theorem css_hsl2hexL_len (s : List Char) : (css_hsl2hexL s).length ≤ s.length :=
  scanL_len _ stepHsl_sound s

theorem css_sub_clrsL_eq (s : List Char) :
    css_sub_clrsL s = replaceAllL (':' :: "white".data) whiteHex s := rfl

theorem css_sub_clrsL_len (s : List Char) : (css_sub_clrsL s).length ≤ s.length := by
  rw [css_sub_clrsL_eq]
  exact replaceAllL_len _ _ _ (by decide) (by decide)

theorem css_shorten_hexL_len (s : List Char) : (css_shorten_hexL s).length ≤ s.length :=
  scanL_len _ stepHex_sound s

theorem css_rgba2hexL_len (s : List Char) : (css_rgba2hexL s).length ≤ s.length :=
  scanL_len _ stepRgba_sound s

theorem css_hsla2hexL_len (s : List Char) : (css_hsla2hexL s).length ≤ s.length :=
  scanL_len _ stepHsla_sound s

theorem css_remove_empty_rulesL_len (s : List Char) :
    (css_remove_empty_rulesL s).length ≤ s.length :=
  scanL_len _ stepEmpty_sound s

theorem css_font_weightsL_len (s : List Char) :
    (css_font_weightsL s).length ≤ s.length := by
  simp only [css_font_weightsL]
  calc (replaceAllL ("font-weight:bold".data) ("font-weight:700".data)
          (replaceAllL ("font-weight:normal".data) ("font-weight:400".data) s)).length
      ≤ (replaceAllL ("font-weight:normal".data) ("font-weight:400".data) s).length :=
        replaceAllL_len _ _ _ (by decide) (by decide)
    _ ≤ s.length := replaceAllL_len _ _ _ (by decide) (by decide)

theorem minify_cssL_len (css : List Char) : (minify_cssL css).length ≤ css.length := by
  simp only [minify_cssL]
  exact le_trans (css_font_weightsL_len _) (le_trans (css_remove_empty_rulesL_len _)
    (le_trans (css_hsla2hexL_len _) (le_trans (css_rgba2hexL_len _)
      (le_trans (css_shorten_hexL_len _) (le_trans (css_sub_clrsL_len _)
        (le_trans (css_hsl2hexL_len _) (le_trans (css_rgb2hexL_len _)
          (le_trans (css_shorten_floatsL_len _) (le_trans (css_sub_zero_unitsL_len _)
            (le_trans (css_none_to_zeroL_len _) (le_trans (css_remove_semicolonsL_len _)
              (le_trans (css_remove_url_quotesL_len _)
                (le_trans (css_unquote_selectorsL_len _)
                  (le_trans (css_remove_whitespaceL_len _)
                    (css_remove_commentsL_len css)))))))))))))))

theorem occursL_exists (n : List Char) :
    ∀ s, occursL n s = true → ∃ p t, s = p ++ t ∧ isPre n t = true := by
  intro s
  induction s with
  | nil =>
    intro h
    simp only [occursL] at h
    exact ⟨[], [], rfl, h⟩
  | cons c cs ih =>
    intro h
    simp only [occursL, Bool.or_eq_true] at h
    rcases h with h | h
    · exact ⟨[], c :: cs, rfl, h⟩
    · obtain ⟨p, t, hpt, hp⟩ := ih h
      exact ⟨c :: p, t, by simp [hpt], hp⟩

theorem occursL_mono (n p t : List Char) (h : occursL n t = true) :
    occursL n (p ++ t) = true := by
  obtain ⟨p2, t2, hpt, hp⟩ := occursL_exists n t h
  subst hpt
  rw [← List.append_assoc]
  exact occursL_append_right n (p ++ p2) t2 hp

theorem occursL_mem (n s : List Char) (h : occursL n s = true) : ∀ c ∈ n, c ∈ s := by
  obtain ⟨p, t, hpt, hp⟩ := occursL_exists n s h
  subst hpt
  intro c hc
  exact List.mem_append_right p (isPre_mem n t hp c hc)

theorem leadCount_zero_of (p : Char → Bool) (l : List Char) (h : ∀ c ∈ l, p c = false) :
    leadCount p l = 0 := by
  cases l with
  | nil => rfl
  | cons c cs =>
    simp only [leadCount]
    rw [h c (by simp)]
    simp

theorem stepSemi_none_of_head (d : Char) (ds : List Char) (hd : ¬ d = ';') :
    stepSemi (d :: ds) = none := by
  have h1 : ((';' : Char) == d) = false := by
    rw [beq_eq_false_iff_ne]
    intro h
    exact hd h.symm
  simp [stepSemi, isPre, h1]

theorem scanF_nil (step : List Char → Option (List Char × List Char)) (f : Nat) :
    scanF step f [] = [] := by
  cases f <;> simp [scanF]

theorem scanF_semi_head (f : Nat) (d : Char) (ds : List Char) (hd : ¬ d = ';') :
    isPre [';'] (scanF stepSemi f (d :: ds)) = false := by
  have h1 : ((';' : Char) == d) = false := by
    rw [beq_eq_false_iff_ne]
    intro h
    exact hd h.symm
  cases f with
  | zero => simp [scanF, isPre, h1]
  | succ g =>
    simp only [scanF, stepSemi_none_of_head d ds hd]
    simp [isPre, h1]

theorem scanF_semi_no_ss : ∀ f s, s.length ≤ f → occursL (";;".data) (scanF stepSemi f s) = false := by
  intro f
  induction f with
  | zero =>
    intro s hf
    have : s = [] := List.length_eq_zero.mp (Nat.le_zero.mp hf)
    subst this
    simp [scanF, occursL, isPre]
  | succ f ih =>
    intro s hf
    cases s with
    | nil => simp [scanF, occursL, isPre]
    | cons c cs =>
      by_cases hc : c = ';'
      · subst hc
        cases cs with
        | nil =>
          have hstep : stepSemi [';'] = none := by simp [stepSemi, isPre]
          simp only [scanF, hstep]
          simp [occursL, isPre, scanF_nil]
        | cons d ds =>
          by_cases hd : d = ';'
          · subst hd
            have hstep : stepSemi (';' :: ';' :: ds) =
                some ([], ds.dropWhile (· == ';')) := by
              simp [stepSemi, isPre, List.drop]
            simp only [scanF, hstep, List.nil_append]
            apply ih
            have h1 : (ds.dropWhile (· == ';')).length ≤ ds.length := dropWhile_length_le _ _
            simp only [List.length_cons] at hf
            omega
          · have hstep : stepSemi (';' :: d :: ds) = none := by
              have h1 : ((';' : Char) == d) = false := by
                rw [beq_eq_false_iff_ne]
                intro h
                exact hd h.symm
              simp [stepSemi, isPre, h1]
            simp only [scanF, hstep]
            have hocc : occursL (";;".data) (scanF stepSemi f (d :: ds)) = false := by
              apply ih
              simp only [List.length_cons] at hf ⊢
              omega
            have hhead : isPre [';'] (scanF stepSemi f (d :: ds)) = false :=
              scanF_semi_head f d ds hd
            simp only [occursL, Bool.or_eq_false_iff]
            constructor
            · show (((';' : Char) == ';') && isPre [';'] (scanF stepSemi f (d :: ds))) = false
              rw [hhead]
              simp
            · exact hocc
      · have hstep : stepSemi (c :: cs) = none := stepSemi_none_of_head c cs hc
        simp only [scanF, hstep]
        have hocc : occursL (";;".data) (scanF stepSemi f cs) = false := by
          apply ih
          simp only [List.length_cons] at hf
          omega
        have h1 : ((';' : Char) == c) = false := by
          rw [beq_eq_false_iff_ne]
          intro h
          exact hc h.symm
        simp only [occursL, Bool.or_eq_false_iff]
        constructor
        · show (((';' : Char) == c) && isPre [';'] (scanF stepSemi f cs)) = false
          rw [h1]
          simp
        · exact hocc

theorem css_remove_semicolonsL_no_ss (s : List Char) :
    occursL (";;".data) (css_remove_semicolonsL s) = false :=
  scanF_semi_no_ss _ _ (Nat.le_refl _)

theorem scanF_ws_id : ∀ f s, (∀ c ∈ s, isWS c = false) → scanF stepWS f s = s := by
  intro f
  induction f with
  | zero => intro s _; simp [scanF]
  | succ f ih =>
    intro s h
    cases s with
    | nil => simp [scanF]
    | cons c cs =>
      have hc : isWS c = false := h c (by simp)
      have hcs : ∀ x ∈ cs, isWS x = false := fun x hx => h x (by simp [hx])
      have hl0 : leadCount isWS (c :: cs) = 0 := leadCount_zero_of _ _ h
      have hl1 : leadCount isWS cs = 0 := leadCount_zero_of _ _ hcs
      by_cases hp : isPunctW c = true
      · have hstep : stepWS (c :: cs) = some ([c], cs) := by
          simp [stepWS, hl0, hl1, hp]
        simp only [scanF, hstep]
        rw [ih cs hcs]
        rfl
      · have hstep : stepWS (c :: cs) = none := by
          simp only [stepWS, hl0, List.drop]
          rw [if_neg hp]
        simp only [scanF, hstep]
        rw [ih cs hcs]

theorem css_remove_whitespaceL_id (s : List Char) (h : ∀ c ∈ s, isWS c = false) :
    css_remove_whitespaceL s = s := by
  simp only [css_remove_whitespaceL, scanL]
  rw [scanF_ws_id s.length s h]
  have hsp : ¬ (' ' ∈ s) := by
    intro hm
    have := h ' ' hm
    simp [isWS] at this
  have h1 : occursL ("and (".data) s = false := by
    by_contra hx
    have hocc : occursL ("and (".data) s = true := by
      cases hq : occursL ("and (".data) s
      · exact absurd hq hx
      · rfl
    exact hsp (occursL_mem _ s hocc ' ' (by decide))
  have h2 : occursL (") and".data) s = false := by
    by_contra hx
    have hocc : occursL (") and".data) s = true := by
      cases hq : occursL (") and".data) s
      · exact absurd hq hx
      · rfl
    exact hsp (occursL_mem _ s hocc ' ' (by decide))
  rw [replaceAllL_noop _ _ _ h1, replaceAllL_noop _ _ _ h2]
  exact stripL_noop s h

theorem not_isPre_of_not_occurs (n s p t : List Char) (h : occursL n s = false)
    (hpt : p ++ t = s) : isPre n t = false := by
  cases hq : isPre n t
  · rfl
  · exfalso
    have h1 := occursL_append_right n p t hq
    rw [hpt, h] at h1
    cases h1

theorem css_remove_commentsL_noop (s : List Char) (h : occursL ("/*".data) s = false) :
    css_remove_commentsL s = s := by
  apply scanL_noop
  intro p t hpt
  have h1 : isPre ("/*".data) t = false := not_isPre_of_not_occurs _ s p t h hpt
  simp [stepComments, h1]

theorem css_unquote_selectorsL_noop (s : List Char) (h : ¬ ('"' ∈ s)) :
    css_unquote_selectorsL s = s := by
  apply scanL_noop
  intro p t hpt
  cases hq : stepUnquote t with
  | none => rfl
  | some x =>
    exfalso
    apply h
    rw [← hpt]
    apply List.mem_append_right
    simp only [stepUnquote] at hq
    split at hq
    · cases hq
    · split at hq
      · rename_i heq
        exact List.drop_subset _ _ (isPre_mem _ _ heq '"' (by simp))
      · cases hq

theorem css_remove_url_quotesL_noop (s : List Char) (h : occursL ("url(".data) s = false) :
    css_remove_url_quotesL s = s := by
  apply scanL_noop
  intro p t hpt
  have h1 : isPre ("url(".data) t = false := not_isPre_of_not_occurs _ s p t h hpt
  simp [stepUrl, h1]

theorem css_remove_semicolonsL_noop (s : List Char) (h1 : occursL (";\x7d".data) s = false)
    (h2 : occursL (";;".data) s = false) : css_remove_semicolonsL s = s := by
  simp only [css_remove_semicolonsL]
  rw [replaceAllL_noop _ _ _ h1]
  apply scanL_noop
  intro p t hpt
  have hp : isPre (";;".data) t = false := not_isPre_of_not_occurs _ s p t h2 hpt
  simp [stepSemi, hp]

theorem css_none_to_zeroL_noop (s : List Char) (h1 : occursL ("border:none".data) s = false)
    (h2 : occursL ("opacity:none".data) s = false) : css_none_to_zeroL s = s := by
  apply scanL_noop
  intro p t hpt
  have hb : isPre ("border:none".data) t = false := not_isPre_of_not_occurs _ s p t h1 hpt
  have ho : isPre ("opacity:none".data) t = false := not_isPre_of_not_occurs _ s p t h2 hpt
  simp [stepNone, hb, ho]

theorem css_sub_zero_unitsL_noop (s : List Char) (h : ¬ ('0' ∈ s)) :
    css_sub_zero_unitsL s = s := by
  apply scanL_noop
  intro p t hpt
  cases hq : stepUnits t with
  | none => rfl
  | some x =>
    exfalso
    apply h
    rw [← hpt]
    apply List.mem_append_right
    cases t with
    | nil => simp [stepUnits] at hq
    | cons c r1 =>
      simp only [stepUnits] at hq
      split at hq
      · rename_i hcond
        simp only [Bool.and_eq_true] at hcond
        have := isPre_mem _ _ hcond.2 '0' (by simp)
        simp [this]
      · cases hq

theorem css_shorten_floatsL_noop (s : List Char) (h : ¬ ('.' ∈ s)) :
    css_shorten_floatsL s = s := by
  apply scanL_noop
  intro p t hpt
  cases hq : stepFloat t with
  | none => rfl
  | some x =>
    exfalso
    apply h
    rw [← hpt]
    apply List.mem_append_right
    cases t with
    | nil => simp [stepFloat] at hq
    | cons c r1 =>
      simp only [stepFloat] at hq
      split at hq
      · split at hq
        · cases hq
        · split at hq
          · rename_i hdot
            have h1 := isPre_mem _ _ hdot '.' (by simp)
            have h2 := List.drop_subset _ r1 h1
            simp [h2]
          · cases hq
      · cases hq

theorem css_rgb2hexL_noop (s : List Char) (h : occursL ("rgb(".data) s = false) :
    css_rgb2hexL s = s := by
  apply scanL_noop
  intro p t hpt
  have h1 : isPre ("rgb(".data) t = false := not_isPre_of_not_occurs _ s p t h hpt
  simp [stepRgb, h1]

theorem css_hsl2hexL_noop (s : List Char) (h : occursL ("hsl(".data) s = false) :
    css_hsl2hexL s = s := by
  apply scanL_noop
  intro p t hpt
  have h1 : isPre ("hsl(".data) t = false := not_isPre_of_not_occurs _ s p t h hpt
  simp [stepHsl, h1]

theorem css_sub_clrsL_noop (s : List Char) (h : occursL (':' :: "white".data) s = false) :
    css_sub_clrsL s = s := by
  rw [css_sub_clrsL_eq]
  exact replaceAllL_noop _ _ _ h

theorem css_shorten_hexL_noop (s : List Char) (h : ¬ ('#' ∈ s)) :
    css_shorten_hexL s = s := by
  apply scanL_noop
  intro p t hpt
  cases hq : stepHex t with
  | none => rfl
  | some x =>
    exfalso
    apply h
    rw [← hpt]
    apply List.mem_append_right
    cases t with
    | nil => simp [stepHex] at hq
    | cons a r =>
      simp only [stepHex] at hq
      split at hq
      · rename_i ha
        have : a = '#' := by simpa using ha
        simp [this]
      · cases hq

theorem css_rgba2hexL_noop (s : List Char) (h : occursL ("rgba(".data) s = false) :
    css_rgba2hexL s = s := by
  apply scanL_noop
  intro p t hpt
  have h1 : isPre ("rgba(".data) t = false := not_isPre_of_not_occurs _ s p t h hpt
  simp [stepRgba, h1]

theorem css_hsla2hexL_noop (s : List Char) (h : occursL ("hsla(".data) s = false) :
    css_hsla2hexL s = s := by
  apply scanL_noop
  intro p t hpt
  have h1 : isPre ("hsla(".data) t = false := not_isPre_of_not_occurs _ s p t h hpt
  simp [stepHsla, h1]

theorem css_remove_empty_rulesL_noop (s : List Char) (h : occursL ("{}".data) s = false) :
    css_remove_empty_rulesL s = s := by
  apply scanL_noop
  intro p t hpt
  cases hq : stepEmpty t with
  | none => rfl
  | some x =>
    exfalso
    cases t with
    | nil => simp [stepEmpty] at hq
    | cons c cs =>
      simp only [stepEmpty] at hq
      split at hq
      · cases hq
      · split at hq
        · rename_i hpre
          have h1 : occursL ("{}".data) (c :: cs) = true := by
            have h2 := occursL_append_right ("{}".data)
              ((c :: cs).take (leadCount (fun x => !(x == '{' || x == '}')) (c :: cs)))
              ((c :: cs).drop (leadCount (fun x => !(x == '{' || x == '}')) (c :: cs))) hpre
            rwa [List.take_append_drop] at h2
          have h3 := occursL_mono ("{}".data) p (c :: cs) h1
          rw [hpt, h] at h3
          cases h3
        · cases hq

theorem css_font_weightsL_noop (s : List Char)
    (h1 : occursL ("font-weight:normal".data) s = false)
    (h2 : occursL ("font-weight:bold".data) s = false) : css_font_weightsL s = s := by
  simp only [css_font_weightsL]
  rw [replaceAllL_noop _ _ _ h1, replaceAllL_noop _ _ _ h2]

theorem strData_append (a b : String) : (a ++ b).data = a.data ++ b.data := by
  cases a
  cases b
  rfl

theorem strExt (a b : String) (h : a.data = b.data) : a = b := by
  cases a
  cases b
  exact congrArg String.mk h

theorem css_none_to_zeroL_fire_border (t : List Char) :
    css_none_to_zeroL ("border:none".data ++ t) = "border:0".data ++ css_none_to_zeroL t :=
  scanL_fire _ stepNone_sound _ _ _ rfl

theorem css_none_to_zeroL_fire_opacity (t : List Char) :
    css_none_to_zeroL ("opacity:none".data ++ t) = "opacity:0".data ++ css_none_to_zeroL t :=
  scanL_fire _ stepNone_sound _ _ _ rfl

theorem css_sub_clrsL_fire (t : List Char) :
    css_sub_clrsL ((':' :: "white".data) ++ t) = whiteHex ++ css_sub_clrsL t := by
  rw [css_sub_clrsL_eq, css_sub_clrsL_eq]
  exact replaceAllL_fire _ _ t (by decide) (by decide)

theorem css_shorten_hexL_fire (t : List Char) :
    css_shorten_hexL (('#' :: "aabbccdd".data) ++ t) = ('#' :: "abcdd".data) ++ css_shorten_hexL t := by
  have h1 : stepHex (('#' :: "aabbccdd".data) ++ t) = some (('#' :: "abc".data), 'd' :: 'd' :: t) := rfl
  calc scanL stepHex (('#' :: "aabbccdd".data) ++ t)
      = ('#' :: "abc".data) ++ scanL stepHex ('d' :: 'd' :: t) := scanL_fire _ stepHex_sound _ _ _ h1
    _ = ('#' :: "abc".data) ++ ('d' :: scanL stepHex ('d' :: t)) := by
        rw [scanL_cons_none stepHex 'd' ('d' :: t) rfl]
    _ = ('#' :: "abc".data) ++ ('d' :: ('d' :: scanL stepHex t)) := by
        rw [scanL_cons_none stepHex 'd' t rfl]
    _ = ('#' :: "abcdd".data) ++ scanL stepHex t := rfl

/-- C1: for every input string — in particular every well-formed CSS input —
the output of minify_css is never longer than the input. -/
theorem C1_minify_css_length_le (css : String) : (minify_css css).length ≤ css.length :=
  minify_cssL_len css.data

/-- C2 counterexample: minify_css on ".x { margin: 0.500em; }" returns
".x{margin:.500em}", which still contains the "em" unit — the claim that no
"em" remains after the zero and that the value becomes ".5" is false. -/
theorem C2_counterexample :
    minify_css (String.mk ['.', 'x', ' ', '{', ' ', 'm', 'a', 'r', 'g', 'i', 'n', ':', ' ', '0', '.', '5', '0', '0', 'e', 'm', ';', ' ', '}']) = String.mk ['.', 'x', '{', 'm', 'a', 'r', 'g', 'i', 'n', ':', '.', '5', '0', '0', 'e', 'm', '}'] ∧
    occursL ("em".data) (minify_css (String.mk ['.', 'x', ' ', '{', ' ', 'm', 'a', 'r', 'g', 'i', 'n', ':', ' ', '0', '.', '5', '0', '0', 'e', 'm', ';', ' ', '}'])).data = true :=
  ⟨by decide, by decide⟩

/-- C2 amended: minify_css on ".x { margin: 0.500em; }" returns
".x{margin:.500em}": the output contains ".5", but the "em" unit remains and
the value becomes ".500em" (only the leading zero is stripped; trailing zeros
and the unit of a nonzero value are kept). -/
theorem C2_amended :
    minify_css (String.mk ['.', 'x', ' ', '{', ' ', 'm', 'a', 'r', 'g', 'i', 'n', ':', ' ', '0', '.', '5', '0', '0', 'e', 'm', ';', ' ', '}']) = String.mk ['.', 'x', '{', 'm', 'a', 'r', 'g', 'i', 'n', ':', '.', '5', '0', '0', 'e', 'm', '}'] ∧
    occursL (".5".data) (minify_css (String.mk ['.', 'x', ' ', '{', ' ', 'm', 'a', 'r', 'g', 'i', 'n', ':', ' ', '0', '.', '5', '0', '0', 'e', 'm', ';', ' ', '}'])).data = true ∧
    occursL ("em".data) (minify_css (String.mk ['.', 'x', ' ', '{', ' ', 'm', 'a', 'r', 'g', 'i', 'n', ':', ' ', '0', '.', '5', '0', '0', 'e', 'm', ';', ' ', '}'])).data = true :=
  ⟨by decide, by decide, by decide⟩

/-- C3 counterexample: on input ";;}" css_remove_semicolons yields ";}",
which contains ";}": the ";}"-replace runs before the semicolon-run collapse
and replacing one ";}" can expose a new one. -/
theorem C3_counterexample :
    css_remove_semicolons (";;\x7d") = (";\x7d") ∧
    occursL (";\x7d".data) (css_remove_semicolons (";;\x7d")).data = true :=
  ⟨by decide, by decide⟩

/-- C3 amended: the output of css_remove_semicolons never contains ";;", but
it can contain ";}" — e.g. input ";;}" yields ";}" — because the literal
";}" replace happens first and left-to-right only once per position. -/
theorem C3_amended :
    (∀ s : String, occursL (";;".data) (css_remove_semicolons s).data = false) ∧
    css_remove_semicolons (";;\x7d") = (";\x7d") :=
  ⟨fun s => css_remove_semicolonsL_no_ss s.data, by decide⟩

/-- C4 counterexample: "a{b:c;;}" is well-formed CSS (stray semicolons in a
declaration list are consumed without error) and triggers no rgba/hsla
conversion, yet the second minify_css run shortens the first run's output
"a{b:c;}" to "a{b:c}". -/
theorem C4_counterexample :
    minify_css ("a{b:c;;}") = ("a{b:c;}") ∧
    (minify_css (minify_css ("a{b:c;;}"))).length < (minify_css ("a{b:c;;}")).length :=
  ⟨by decide, by decide⟩

/-- C4 amended: re-running minify_css on its own output never increases the
length, for every input; but a strict decrease is possible even where no
rgba/hsla conversion applies (see the counterexample with ";;}"). -/
theorem C4_amended (css : String) :
    (minify_css (minify_css css)).length ≤ (minify_css css).length := by
  rcases hm : minify_css css with ⟨l⟩
  exact minify_cssL_len l

/-- C5 counterexample: the rule's regex has no left token boundary, so the
":none" of the distinct property "xborder" is also rewritten:
"a{xborder:none}" becomes "a{xborder:0}". -/
theorem C5_counterexample :
    css_none_to_zero ("a{xborder:none}") = ("a{xborder:0}") := by decide

/-- C5 amended: css_none_to_zero rewrites every literal occurrence of
"border:none" and "opacity:none" — including inside longer property names
that merely end in border/opacity — and returns the input unchanged when
neither literal occurs, so ":none" after a property not ending in border or
opacity is untouched. -/
theorem C5_amended :
    (∀ t : String, css_none_to_zero ("border:none" ++ t) = "border:0" ++ css_none_to_zero t) ∧
    (∀ t : String, css_none_to_zero ("opacity:none" ++ t) = "opacity:0" ++ css_none_to_zero t) ∧
    (∀ s : String, occursL ("border:none".data) s.data = false →
      occursL ("opacity:none".data) s.data = false → css_none_to_zero s = s) ∧
    css_none_to_zero ("a{xborder:none}") = ("a{xborder:0}") := by
  refine ⟨?_, ?_, ?_, by decide⟩
  · intro t
    apply strExt
    show css_none_to_zeroL ("border:none" ++ t).data = ("border:0" ++ css_none_to_zero t).data
    rw [strData_append, strData_append]
    exact css_none_to_zeroL_fire_border t.data
  · intro t
    apply strExt
    show css_none_to_zeroL ("opacity:none" ++ t).data = ("opacity:0" ++ css_none_to_zero t).data
    rw [strData_append, strData_append]
    exact css_none_to_zeroL_fire_opacity t.data
  · intro s h1 h2
    exact strExt _ _ (css_none_to_zeroL_noop s.data h1 h2)

/-- C5 witness: the amended no-op part at the concrete input "a{foo:none}". -/
theorem C5_witness : css_none_to_zero ("a{foo:none}") = ("a{foo:none}") :=
  C5_amended.2.2.1 ("a{foo:none}") (by decide) (by decide)

/-- C6: for every entry of the Replaceable Color Table (modelled from the
spec), css_sub_clrs replaces the literal substring ":keyword" by the stored
colon-prefixed hex value by a plain substring replace with no token-boundary
check: the replacement fires for ":keyword" followed by any text, including
further identifier characters, as in "a{color:whitesmoke}". -/
theorem C6_sub_clrs (kv : List Char × List Char) (hkv : kv ∈ REPLACABLE_CLRS) :
    (∀ t : List Char, css_sub_clrsL ((':' :: kv.1) ++ t) = kv.2 ++ css_sub_clrsL t) ∧
    css_sub_clrs ("a{color:whitesmoke}") =
      String.mk ['a', '{', 'c', 'o', 'l', 'o', 'r', ':', '#', 'f', 'f', 'f', 's', 'm', 'o',
        'k', 'e', '}'] := by
  have hk : kv = ("white".data, whiteHex) := by
    simpa [REPLACABLE_CLRS] using hkv
  subst hk
  exact ⟨fun t => css_sub_clrsL_fire t, by decide⟩

/-- C6 witness: the table entry for white applied to ":white" followed by
further text. -/
theorem C6_witness :
    css_sub_clrsL ((':' :: "white".data) ++ "rest".data) =
      whiteHex ++ css_sub_clrsL ("rest".data) :=
  (C6_sub_clrs ("white".data, whiteHex) (by decide)).1 ("rest".data)

/-- C7: the 6-digit hex shortening runs strictly before the rgba and hsla
conversions, so the 8-digit hex strings they produce stay full length in the
final output even when every digit pair is doubled, while a 6-digit hex
produced by the earlier rgb conversion is collapsed. -/
theorem C7_order :
    minify_css ("a{c:rgba(170,187,204,1)}") =
      String.mk ['a', '{', 'c', ':', '#', 'a', 'a', 'b', 'b', 'c', 'c', 'f', 'f', '}'] ∧
    minify_css ("a{c:hsla(0,0,0,1)}") =
      String.mk ['a', '{', 'c', ':', '#', '0', '0', '0', '0', '0', '0', 'f', 'f', '}'] ∧
    minify_css ("a{c:rgb(170,187,204)}") =
      String.mk ['a', '{', 'c', ':', '#', 'a', 'b', 'c', '}'] :=
  ⟨by decide, by decide, by decide⟩

/-- C8 counterexample: css_remove_semicolons is registered with the pattern
";;+"; the input "a;}" contains no occurrence of that pattern, yet the rule
changes the input, because its extra literal ";}"-replace still fires. -/
theorem C8_counterexample :
    occursL (";;".data) ("a;\x7d".data) = false ∧
    css_remove_semicolons ("a;\x7d") ≠ ("a;\x7d") :=
  ⟨by decide, by decide⟩

/-- C8 amended: the pipeline (as embedded) is total, and each rule returns
its input unchanged when all of its trigger substrings are absent; but two
rules act beyond their registered regex pattern: css_remove_whitespace also
rewrites "and (", ") and" and strips outer whitespace, and
css_remove_semicolons also removes ";}". The conjunction below gives, for
each of the sixteen rules, a trigger-absence condition under which it is a
no-op. -/
theorem C8_amended :
    (∀ s : String, occursL ("/*".data) s.data = false → css_remove_comments s = s) ∧
    (∀ s : String, (∀ c ∈ s.data, isWS c = false) → css_remove_whitespace s = s) ∧
    (∀ s : String, ¬ ('"' ∈ s.data) → css_unquote_selectors s = s) ∧
    (∀ s : String, occursL ("url(".data) s.data = false → css_remove_url_quotes s = s) ∧
    (∀ s : String, occursL (";\x7d".data) s.data = false → occursL (";;".data) s.data = false →
      css_remove_semicolons s = s) ∧
    (∀ s : String, occursL ("border:none".data) s.data = false →
      occursL ("opacity:none".data) s.data = false → css_none_to_zero s = s) ∧
    (∀ s : String, ¬ ('0' ∈ s.data) → css_sub_zero_units s = s) ∧
    (∀ s : String, ¬ ('.' ∈ s.data) → css_shorten_floats s = s) ∧
    (∀ s : String, occursL ("rgb(".data) s.data = false → css_rgb2hex s = s) ∧
    (∀ s : String, occursL ("hsl(".data) s.data = false → css_hsl2hex s = s) ∧
    (∀ s : String, occursL (':' :: "white".data) s.data = false → css_sub_clrs s = s) ∧
    (∀ s : String, ¬ ('#' ∈ s.data) → css_shorten_hex s = s) ∧
    (∀ s : String, occursL ("rgba(".data) s.data = false → css_rgba2hex s = s) ∧
    (∀ s : String, occursL ("hsla(".data) s.data = false → css_hsla2hex s = s) ∧
    (∀ s : String, occursL ("{}".data) s.data = false → css_remove_empty_rules s = s) ∧
    (∀ s : String, occursL ("font-weight:normal".data) s.data = false →
      occursL ("font-weight:bold".data) s.data = false → css_font_weights s = s) := by
  refine ⟨fun s h => strExt _ _ (css_remove_commentsL_noop s.data h),
    fun s h => strExt _ _ (css_remove_whitespaceL_id s.data h),
    fun s h => strExt _ _ (css_unquote_selectorsL_noop s.data h),
    fun s h => strExt _ _ (css_remove_url_quotesL_noop s.data h),
    fun s h1 h2 => strExt _ _ (css_remove_semicolonsL_noop s.data h1 h2),
    fun s h1 h2 => strExt _ _ (css_none_to_zeroL_noop s.data h1 h2),
    fun s h => strExt _ _ (css_sub_zero_unitsL_noop s.data h),
    fun s h => strExt _ _ (css_shorten_floatsL_noop s.data h),
    fun s h => strExt _ _ (css_rgb2hexL_noop s.data h),
    fun s h => strExt _ _ (css_hsl2hexL_noop s.data h),
    fun s h => strExt _ _ (css_sub_clrsL_noop s.data h),
    fun s h => strExt _ _ (css_shorten_hexL_noop s.data h),
    fun s h => strExt _ _ (css_rgba2hexL_noop s.data h),
    fun s h => strExt _ _ (css_hsla2hexL_noop s.data h),
    fun s h => strExt _ _ (css_remove_empty_rulesL_noop s.data h),
    fun s h1 h2 => strExt _ _ (css_font_weightsL_noop s.data h1 h2)⟩

/-- C8 witness: the comments rule is a no-op on the pattern-free "abc". -/
theorem C8_witness : css_remove_comments ("abc") = ("abc") :=
  C8_amended.1 ("abc") (by decide)

/-- C9: the 6-digit hex rule matches the first six hex digits of a longer
hex literal: "#aabbccdd" (first three digit pairs doubled) followed by any
text collapses those six digits to three and keeps the last two, yielding
the 5-digit "#abcdd". -/
theorem C9_hex_first_six :
    (∀ t : List Char,
      css_shorten_hexL (('#' :: "aabbccdd".data) ++ t) = ('#' :: "abcdd".data) ++ css_shorten_hexL t) ∧
    css_shorten_hex (String.mk ('#' :: "aabbccdd".data)) =
      String.mk ('#' :: "abcdd".data) :=
  ⟨css_shorten_hexL_fire, by decide⟩

/-- C10: the rewrite rules apply inside quoted CSS string literals too: on
the input a{content:";}"} the semicolon-removal deletes the quoted ";",
so minify_css returns a{content:"}"}. -/
theorem C10_inside_string_literal :
    minify_css (String.mk ['a', '{', 'c', 'o', 'n', 't', 'e', 'n', 't', ':', '"', ';', '}',
      '"', '}']) =
      String.mk ['a', '{', 'c', 'o', 'n', 't', 'e', 'n', 't', ':', '"', '}', '"', '}'] := by
  decide
